import Mathlib

/-!
Verification of the blog content/access-control core of `fuyu28/my-blog-new`.

The development shallowly embeds:
* the password gate for protected posts (`src/app/post/[slug]/actions.ts`),
* slug normalization, discovery and path resolution of the content loader
  (`scripts/generate-content.ts` and the live `posts.ts`),
* the batch-ingestion aggregation (`Promise.allSettled` + in-order collection),
* the public listing filter/sort (`listPublicPosts`),
* the frontmatter schema validator (modelled from the spec; the Zod schema
  file `frontmatterSchema.ts` is not part of the provided sources).

External collaborators are modelled as parameters: the SHA-256 hex digest is
an arbitrary function `hash : String → String`, the filesystem is a list of
directory entries plus a `hasIndexFile` predicate, and per-slug read/parse
pipelines are functions `String → Except PostFailure α`.
-/

namespace Blog

/-! ### Executable string primitives

The JS string operations used by the code (`trim`, `includes`, `startsWith`,
`slice`, `split`, `join`) are modelled over the character list of a `String`,
so that every definition evaluates by kernel reduction. -/

/-- JS `String.prototype.trim`: strip leading and trailing whitespace. -/
def jsTrim (s : String) : String :=
  ⟨((s.data.dropWhile Char.isWhitespace).reverse.dropWhile Char.isWhitespace).reverse⟩

/-- JS `String.prototype.includes(c)` for a single character. -/
def strContainsChar (s : String) (c : Char) : Bool :=
  s.data.contains c

/-- JS `String.prototype.startsWith(p)`. -/
def strStartsWith (s p : String) : Bool :=
  p.data.isPrefixOf s.data

/-- Drop the first `n` characters of a string. -/
def strDrop (s : String) (n : Nat) : String :=
  ⟨s.data.drop n⟩

/-- Helper for `splitOnChar`: `acc` is the reversed current chunk. -/
def splitOnCharAux (c : Char) : List Char → List Char → List String
  | [], acc => [⟨acc.reverse⟩]
  | x :: xs, acc =>
    if x = c then ⟨acc.reverse⟩ :: splitOnCharAux c xs []
    else splitOnCharAux c xs (x :: acc)

/-- JS `String.prototype.split(c)` for a single-character separator. -/
def splitOnChar (s : String) (c : Char) : List String :=
  splitOnCharAux c s.data []

/-- JS `Array.prototype.join(sep)`. -/
def intercalateStr (sep : String) : List String → String
  | [] => ""
  | [x] => x
  | x :: xs => x ++ sep ++ intercalateStr sep xs

/-- The four access literals of the frontmatter `access` field:
`"public" | "unlisted" | "private" | "protected"`
(`priv` and `prot` stand for the reserved words `private` / `protected`). -/
inductive Access
  | pub
  | unlisted
  | priv
  | prot
deriving DecidableEq, Repr

/-- `ProtectedPostActionState` from `actions.ts`: the three optional fields of
the server-action result object. -/
structure ActionState where
  success? : Option Bool := none
  error? : Option String := none
  content? : Option String := none
deriving DecidableEq, Repr

/-- A cookie written by `cookieStore.set(name, value, options)` (the options
used by `verifyProtectedPostPassword`). -/
structure SetCookie where
  name : String
  value : String
  httpOnly : Bool
  sameSite : String
  path : String
  secure : Bool
  maxAge : Nat
deriving DecidableEq, Repr

/-- `protectedCookieName` from `actions.ts`. -/
def protectedCookieName (slug : String) : String :=
  "protected-post-" ++ slug

/-- The request's cookie store, as (name, value) pairs;
`cookieStore.get(name)?.value`. -/
def lookupCookie (store : List (String × String)) (name : String) : Option String :=
  (store.find? (fun c => c.1 == name)).map (fun c => c.2)

/-- `hasProtectedAccess` from `actions.ts`:
`cookieStore.get(protectedCookieName(slug))?.value === expectedHash`. -/
def hasProtectedAccess (store : List (String × String)) (slug expectedHash : String) : Bool :=
  match lookupCookie store (protectedCookieName slug) with
  | some v => v == expectedHash
  | none => false

/-- The fields of a fetched post that the access gate reads: the result of
`getPostBySlug(slug)` for an existing post. -/
structure GatePost where
  access : Access
  password : Option String
  content : String
deriving DecidableEq, Repr

/-- The JS falsy test `!frontmatter.password`: true for `undefined` and for
the empty string. -/
def passwordMissing (pw : Option String) : Bool :=
  match pw with
  | none => true
  | some s => s == ""

/-- The misconfiguration error returned when a protected post has no usable
password configured. -/
def misconfigError : ActionState :=
  { error? := some "access: \"protected\" の記事には password を設定してください。" }

/-- `loadProtectedPost` from `actions.ts`, for an existing post `post` fetched
under `slug`. `hash` models the SHA-256 hex digest. -/
def loadProtectedPost (hash : String → String) (slug : String) (post : GatePost)
    (store : List (String × String)) : ActionState :=
  if post.access ≠ Access.prot then
    { success? := some true, content? := some post.content }
  else if passwordMissing post.password then
    misconfigError
  else
    let expectedHash := hash (post.password.getD "")
    if hasProtectedAccess store slug expectedHash then
      { success? := some true, content? := some post.content }
    else
      { success? := some false }

/-- `verifyProtectedPostPassword` from `actions.ts`. `form` is
`formData.get("password")` (`none` covers `null` or a non-string value),
`isProd` is `process.env.NODE_ENV === "production"`. The second component is
the cookie written by `cookieStore.set`, if any. -/
def verifyProtectedPostPassword (hash : String → String) (isProd : Bool) (slug : String)
    (post : GatePost) (form : Option String) : ActionState × Option SetCookie :=
  if post.access ≠ Access.prot then
    ({ success? := some true, content? := some post.content }, none)
  else if passwordMissing post.password then
    (misconfigError, none)
  else
    match form with
    | none => ({ error? := some "パスワードを入力してください。" }, none)
    | some input =>
      if input == "" then
        ({ error? := some "パスワードを入力してください。" }, none)
      else
        let expectedHash := hash (post.password.getD "")
        let inputHash := hash input
        if inputHash ≠ expectedHash then
          ({ error? := some "パスワードが一致しません。" }, none)
        else
          ({ success? := some true, content? := some post.content },
           some { name := protectedCookieName slug, value := expectedHash,
                  httpOnly := true, sameSite := "lax", path := "/",
                  secure := isProd, maxAge := 60 * 60 * 12 })

/-! ## Slug normalization and path resolution (generate-content.ts / live posts.ts) -/

/-- The canonical entry filename `POST_ENTRY_FILENAME = "index.md"`. -/
def postEntryFilename : String := "index.md"

/-- `normalizeSlug`: trims the slug and rejects the empty string, `"."`,
`".."`, and any slug containing `"/"` or `"\"`; a thrown
`Error("Invalid slug: ...")` is modelled as `Except.error`. -/
def normalizeSlug (slug : String) : Except String String :=
  let cleaned := jsTrim slug
  if cleaned.length == 0 || cleaned == "." || cleaned == ".." ||
      strContainsChar cleaned '/' || strContainsChar cleaned '\\' then
    Except.error ("Invalid slug: " ++ slug)
  else
    Except.ok cleaned

/-- One pass of POSIX path normalization: drop `"."` segments and let `".."`
remove the previous segment (doing nothing at the root). -/
def collapseSegs (segs : List String) : List String :=
  segs.foldl
    (fun acc seg =>
      if seg == "." then acc
      else if seg == ".." then acc.dropLast
      else acc ++ [seg])
    []

/-- Node's `path.resolve(parts...)` for a POSIX filesystem when the leading
part is an absolute path: split every part on `"/"`, drop empty segments and
normalize `"."` / `".."`. -/
def pathResolve (parts : List String) : String :=
  let segs := (parts.foldr (fun p acc => splitOnChar p '/' ++ acc) []).filter (fun s => s ≠ "")
  "/" ++ intercalateStr "/" (collapseSegs segs)

/-- `slug.replace(/^\//, "")`: removes a single leading `"/"` if present. -/
def stripOneLeadingSlash (s : String) : String :=
  if strStartsWith s "/" then strDrop s 1 else s

/-- `resolvePostFilePath(postsRoot, slug)`: strips one leading slash,
normalizes the slug, resolves `postsRoot/slug/index.md` and re-checks that the
candidate stays inside the resolved posts root. -/
def resolvePostFilePath (postsRoot slug : String) : Except String String :=
  match normalizeSlug (stripOneLeadingSlash slug) with
  | Except.error e => Except.error e
  | Except.ok safeSlug =>
    let candidate := pathResolve [postsRoot, safeSlug, postEntryFilename]
    let normalizedPostsRoot := pathResolve [postsRoot]
    if !(strStartsWith candidate (normalizedPostsRoot ++ "/")) &&
        candidate ≠ normalizedPostsRoot then
      Except.error ("Invalid slug: " ++ slug)
    else
      Except.ok candidate

/-! ## Slug discovery (`listPostSlugs`) -/

/-- A `fs.readdir(postsRoot, { withFileTypes: true })` entry: its `name` and
`isDirectory()`. -/
structure DirEntry where
  name : String
  isDir : Bool
deriving DecidableEq, Repr

/-- Strict lexicographic (code-point) order on character lists. -/
def listStrLt : List Char → List Char → Bool
  | [], [] => false
  | [], _ :: _ => true
  | _ :: _, [] => false
  | a :: as, b :: bs =>
    if a < b then true
    else if b < a then false
    else listStrLt as bs

/-- Strict lexicographic (code-point) order on strings. -/
def strLt (a b : String) : Bool :=
  listStrLt a.data b.data

/-- `String.localeCompare`, modelled as the code-point (lexicographic)
three-way comparison; for the ASCII slugs at hand the default collator agrees
with code-point order. -/
def localeCompare (a b : String) : Int :=
  if strLt a b then -1 else if a = b then 0 else 1

/-- JS `Array.prototype.map` over a throwing function: the first exception
aborts the whole map. -/
def mapExcept (f : α → Except ε β) : List α → Except ε (List β)
  | [] => Except.ok []
  | x :: xs =>
    match f x with
    | Except.error e => Except.error e
    | Except.ok y =>
      match mapExcept f xs with
      | Except.error e => Except.error e
      | Except.ok ys => Except.ok (y :: ys)

/-- Insertion of `x` into a list governed by a JS-style three-way comparator:
`x` goes before the first element `y` with `c x y ≤ 0`. -/
def insertByCmp (c : α → α → Int) (x : α) : List α → List α
  | [] => [x]
  | y :: ys => if c x y ≤ 0 then x :: y :: ys else y :: insertByCmp c x ys

/-- `Array.prototype.sort(comparator)`, modelled as a stable insertion sort
over the comparator. -/
def sortByCmp (c : α → α → Int) : List α → List α
  | [] => []
  | x :: xs => insertByCmp c x (sortByCmp c xs)

/-- `listPostSlugs(postsRoot)`: keeps the directory entries that are
directories and are not hidden (name starting with `"."`), normalizes each
name (a throw aborts the pass), keeps the slugs whose directory contains
`index.md` (`hasIndexFile` models the `fs.access` probe; a missing file is a
warning-level skip), fails with the layout-naming error when none remain, and
returns the remainder sorted with `localeCompare`. -/
def listPostSlugs (postsRoot : String) (dirEntries : List DirEntry)
    (hasIndexFile : String → Bool) : Except String (List String) :=
  let names := (dirEntries.filter
    (fun e => e.isDir && !(strStartsWith e.name "."))).map (fun e => e.name)
  match mapExcept normalizeSlug names with
  | Except.error e => Except.error e
  | Except.ok dirNames =>
    let found := dirNames.filter hasIndexFile
    if found.length == 0 then
      Except.error ("No posts found in " ++ postsRoot ++
        ". Expected \"external-posts/<slug>/index.md\".")
    else
      Except.ok (sortByCmp localeCompare found)

/-! ## Batch ingestion (`Promise.allSettled` aggregation) -/

/-- The two rejection kinds distinguished by the aggregation loop:
`FrontmatterValidationError` (with its issue list) and any other `Error`
(I/O and the like). -/
inductive PostFailure
  | validation (issues : List String)
  | ioError (msg : String)
deriving DecidableEq, Repr

/-- The `results.forEach` collection loop after `Promise.allSettled`:
fulfilled values are pushed onto `entries` in result-index order, rejected
ones are logged and skipped. -/
def settleResults (results : List (Except PostFailure α)) : List α :=
  results.foldl
    (fun acc r =>
      match r with
      | Except.ok v => acc ++ [v]
      | Except.error _ => acc)
    []

/-- The per-slug fan-out plus aggregation shared by `buildPosts`
(generate-content.ts) and the live `listPostsCached`: `pipe` is one slug's
read/checksum/parse pipeline. -/
def buildPostEntries (pipe : String → Except PostFailure α) (slugs : List String) : List α :=
  settleResults (slugs.map pipe)

/-- The tail of `buildPosts` in generate-content.ts: after aggregation, an
empty entry list is a fatal error. -/
def buildPosts (pipe : String → Except PostFailure α) (slugs : List String) :
    Except String (List α) :=
  let entries := buildPostEntries pipe slugs
  if entries.length == 0 then
    Except.error "No valid posts generated. Check content and frontmatter."
  else
    Except.ok entries

/-- The live-mode `listPostsCached` of the filesystem-backed `posts.ts`:
discovery (which is fatal on zero slugs) followed by the settle-all
aggregation — with no check that any entry survived parsing. -/
def listPostsCachedLive (pipe : String → Except PostFailure α) (postsRoot : String)
    (dirEntries : List DirEntry) (hasIndexFile : String → Bool) :
    Except String (List α) :=
  match listPostSlugs postsRoot dirEntries hasIndexFile with
  | Except.error e => Except.error e
  | Except.ok slugs => Except.ok (buildPostEntries pipe slugs)

/-! ## Post entries and the public listing -/

/-- The validated frontmatter after date restoration (`restoreDates`): the JS
`Date` is modelled by its `getTime()` value. -/
structure Frontmatter where
  title : String
  access : Access
  password : Option String := none
  description : Option String := none
  thumbnail : Option String := none
  topics : Option (List String) := none
  date : Option Int := none
deriving DecidableEq, Repr

/-- `PostEntry` from `posts.ts`. -/
structure PostEntry where
  slug : String
  path : String
  sha : String
  frontmatter : Frontmatter
deriving DecidableEq, Repr

/-- The sort comparator of `listPublicPosts`:
`if (!dateA) return 1; if (!dateB) return -1; return dateB - dateA;`
(a `Date` object is always truthy, so the falsy test is exactly
`undefined`). -/
def comparePosts (a b : PostEntry) : Int :=
  match a.frontmatter.date, b.frontmatter.date with
  | none, _ => 1
  | some _, none => -1
  | some da, some db => db - da

/-- `listPublicPosts()`: filter `access === "public"`, then sort with
`comparePosts`; `allPosts` is the (date-restored) result of `listPosts()`. -/
def listPublicPosts (allPosts : List PostEntry) : List PostEntry :=
  sortByCmp comparePosts (allPosts.filter (fun p => p.frontmatter.access == Access.pub))

/-- The ordering `listPublicPosts` is claimed to establish: dated entries
descending by date, undated entries after every dated entry, undated pairs
unconstrained. -/
def dateOrder (a b : PostEntry) : Prop :=
  match a.frontmatter.date, b.frontmatter.date with
  | some da, some db => db ≤ da
  | some _, none => True
  | none, none => True
  | none, some _ => False

/-! ## Frontmatter schema validator

Modelled from the spec: the Zod schema module `frontmatterSchema.ts` is not
among the provided sources (only its callers are), so the validator below
follows the spec's §4.1 contract word for word: per-field rules applied to all
fields in one pass collecting every issue — `title` required non-empty string;
`access`, when present, one of the four literals; `date`, when present, a
string parsing as ISO-8601 (a wrong type is a distinct issue from a bad
format); `topics`, when present, an array of strings; `password`, when
present, a non-empty string — followed by the cross-field rule that
`access = protected` requires `password` to be present. -/

/-- A raw scalar element of a YAML array. -/
inductive RawScalar
  | str (s : String)
  | num (n : Int)
  | boolVal (b : Bool)
  | objVal
deriving DecidableEq, Repr

/-- A raw YAML frontmatter value (arrays hold scalars). -/
inductive RawValue
  | str (s : String)
  | num (n : Int)
  | boolVal (b : Bool)
  | arr (xs : List RawScalar)
  | objVal
deriving DecidableEq, Repr

/-- The raw frontmatter mapping handed to the validator. -/
structure RawFrontmatter where
  title : Option RawValue := none
  access : Option RawValue := none
  date : Option RawValue := none
  topics : Option RawValue := none
  password : Option RawValue := none
  description : Option RawValue := none
  thumbnail : Option RawValue := none
deriving DecidableEq, Repr

/-- The validated frontmatter produced by the validator, before date
restoration (`date` still the ISO string). -/
structure ParsedFrontmatter where
  title : String
  access : Access
  password : Option String := none
  description : Option String := none
  thumbnail : Option String := none
  topics : Option (List String) := none
  date : Option String := none
deriving DecidableEq, Repr

/-- Decodes one of the four `access` literals. -/
def parseAccess (s : String) : Option Access :=
  if s = "public" then some Access.pub
  else if s = "unlisted" then some Access.unlisted
  else if s = "private" then some Access.priv
  else if s = "protected" then some Access.prot
  else none

/-- Modelled from the spec: issues for `title` (required, non-empty string). -/
def titleIssues (v : Option RawValue) : List (String × String) :=
  match v with
  | none => [("title", "required")]
  | some (RawValue.str s) =>
    if s = "" then [("title", "must be a non-empty string")] else []
  | some _ => [("title", "must be a string")]

/-- Modelled from the spec: issues for `access` (one of the four literals,
when present). -/
def accessIssues (v : Option RawValue) : List (String × String) :=
  match v with
  | none => []
  | some (RawValue.str s) =>
    if (parseAccess s).isSome then []
    else [("access", "must be one of public, unlisted, private, protected")]
  | some _ => [("access", "must be one of public, unlisted, private, protected")]

/-- Modelled from the spec: issues for `date` (ISO-8601 string when present;
bad format and wrong type are distinct issues). `isoOk` is the external
ISO-8601 parser. -/
def dateIssues (isoOk : String → Bool) (v : Option RawValue) : List (String × String) :=
  match v with
  | none => []
  | some (RawValue.str s) =>
    if isoOk s then [] else [("date", "invalid ISO-8601 format")]
  | some _ => [("date", "must be a string")]

/-- Is a raw array element a string? -/
def isStrValue : RawScalar → Bool
  | RawScalar.str _ => true
  | _ => false

/-- Modelled from the spec: issues for `topics` (an array of strings when
present; a non-array gets the "must be an array" message). -/
def topicsIssues (v : Option RawValue) : List (String × String) :=
  match v with
  | none => []
  | some (RawValue.arr xs) =>
    if xs.all isStrValue then [] else [("topics", "must be an array of strings")]
  | some _ => [("topics", "must be an array")]

/-- Modelled from the spec: issues for `password` (non-empty string when
present). -/
def passwordIssues (v : Option RawValue) : List (String × String) :=
  match v with
  | none => []
  | some (RawValue.str s) =>
    if s = "" then [("password", "must be a non-empty string")] else []
  | some _ => [("password", "must be a string")]

/-- The `access` level the raw mapping resolves to: the default `private`
when absent, `none` when present but not one of the literals. -/
def resolvedAccess (v : Option RawValue) : Option Access :=
  match v with
  | none => some Access.priv
  | some (RawValue.str s) => parseAccess s
  | some _ => none

/-- Modelled from the spec: the cross-field rule, checked after the per-field
pass — `access = protected` requires `password` to be present. -/
def crossIssues (access password : Option RawValue) : List (String × String) :=
  if resolvedAccess access = some Access.prot ∧ password.isNone then
    [("password", "required when access is protected")]
  else []

/-- Extracts the string payload of a raw value, if any. -/
def rawStr : Option RawValue → Option String
  | some (RawValue.str s) => some s
  | _ => none

/-- Extracts a string array payload of a raw value, if any. -/
def rawStrList : Option RawValue → Option (List String)
  | some (RawValue.arr xs) =>
    some (xs.filterMap (fun x => match x with | RawScalar.str s => some s | _ => none))
  | _ => none

/-- Modelled from the spec: the frontmatter Validator — one pass over all
fields collecting every issue, then the cross-field rule; success exactly
when no issue was collected. -/
def validateFrontmatter (isoOk : String → Bool) (raw : RawFrontmatter) :
    Except (List (String × String)) ParsedFrontmatter :=
  let issues :=
    titleIssues raw.title ++ accessIssues raw.access ++ dateIssues isoOk raw.date ++
      topicsIssues raw.topics ++ passwordIssues raw.password ++
      crossIssues raw.access raw.password
  if issues = [] then
    Except.ok
      { title := (rawStr raw.title).getD ""
        access := (resolvedAccess raw.access).getD Access.priv
        password := rawStr raw.password
        description := rawStr raw.description
        thumbnail := rawStr raw.thumbnail
        topics := rawStrList raw.topics
        date := rawStr raw.date }
  else
    Except.error issues

/-! ## Specification-side predicates and sample inputs -/

/-- The slugs the discovery pass is claimed to return (before sorting):
names of non-hidden immediate subdirectories whose directory has the entry
file. -/
def discoveredSlugs (dirEntries : List DirEntry) (hasIndexFile : String → Bool) :
    List String :=
  ((dirEntries.filter
    (fun e => e.isDir && !(strStartsWith e.name "."))).map (fun e => e.name)).filter
    hasIndexFile

/-- The four access literals, as the claim words them. -/
def accessLiteralList : List String := ["public", "unlisted", "private", "protected"]

/-- Claim-side: `title` is a non-empty string. -/
def titleOk (raw : RawFrontmatter) : Prop :=
  ∃ s, raw.title = some (RawValue.str s) ∧ s ≠ ""

/-- Claim-side: `access`, when present, is one of the four literals. -/
def accessOk (raw : RawFrontmatter) : Prop :=
  raw.access = none ∨ ∃ s, raw.access = some (RawValue.str s) ∧ s ∈ accessLiteralList

/-- Claim-side: `date`, when present, parses as ISO-8601. -/
def dateFieldOk (isoOk : String → Bool) (raw : RawFrontmatter) : Prop :=
  raw.date = none ∨ ∃ s, raw.date = some (RawValue.str s) ∧ isoOk s = true

/-- Claim-side: `topics`, when present, is an array of strings. -/
def topicsOk (raw : RawFrontmatter) : Prop :=
  raw.topics = none ∨
    ∃ xs, raw.topics = some (RawValue.arr xs) ∧ ∀ x ∈ xs, isStrValue x = true

/-- Claim-side: `password` is present whenever `access = protected`. -/
def protNeedsPassword (raw : RawFrontmatter) : Prop :=
  raw.access = some (RawValue.str "protected") → raw.password ≠ none

/-- Claim-side: `password`, when present, is a non-empty string (the spec's
per-field rule the claim under scrutiny omits). -/
def passwordFieldOk (raw : RawFrontmatter) : Prop :=
  raw.password = none ∨ ∃ s, raw.password = some (RawValue.str s) ∧ s ≠ ""

/-- The success condition exactly as claim C8 states it. -/
def c8ClaimCond (isoOk : String → Bool) (raw : RawFrontmatter) : Prop :=
  titleOk raw ∧ accessOk raw ∧ dateFieldOk isoOk raw ∧ topicsOk raw ∧
    protNeedsPassword raw

/-- A raw mapping with a valid title and a present-but-empty `password`. -/
def c8Raw : RawFrontmatter :=
  { title := some (RawValue.str "t"), password := some (RawValue.str "") }

/-- A raw mapping missing `title` and with a scalar `topics`. -/
def c8BadRaw : RawFrontmatter :=
  { topics := some (RawValue.str "x") }

/-- A raw mapping with a valid title, `access: "protected"` and no
`password`. -/
def c8ProtRaw : RawFrontmatter :=
  { title := some (RawValue.str "t"), access := some (RawValue.str "protected") }

/-- A sample per-slug pipeline in which only slug `"b"` fails. -/
def sampleFailBPipe (s : String) : Except PostFailure String :=
  if s == "b" then Except.error (PostFailure.validation ["missing title"])
  else Except.ok s

/-- A sample per-slug pipeline in which every slug fails validation. -/
def allFailPipe (_s : String) : Except PostFailure String :=
  Except.error (PostFailure.validation ["missing title"])

/-- Decidable equality for `Except`, for evaluating witnesses. -/
def exceptDecEq [DecidableEq ε] [DecidableEq α] :
    (a b : Except ε α) → Decidable (a = b)
  | Except.error e, Except.error f =>
    if h : e = f then isTrue (by rw [h]) else isFalse (fun hh => h (Except.error.inj hh))
  | Except.error _, Except.ok _ => isFalse (fun hh => Except.noConfusion hh)
  | Except.ok _, Except.error _ => isFalse (fun hh => Except.noConfusion hh)
  | Except.ok a, Except.ok b =>
    if h : a = b then isTrue (by rw [h]) else isFalse (fun hh => h (Except.ok.inj hh))

instance [DecidableEq ε] [DecidableEq α] : DecidableEq (Except ε α) := exceptDecEq

/-! ## Theorems -/

/-- C1: for a post with `access = "protected"` and a configured non-empty
password, `verifyProtectedPostPassword` returns the content and sets the
HTTP-only, SameSite-lax, path-`"/"`, 12-hour cookie `protected-post-<slug>`
holding the hash of the configured password exactly when the submitted value
is a non-empty string whose hash equals the configured password's hash; a
mismatching, empty or missing submission yields a user-facing error and sets
no cookie. -/
theorem verifyProtectedPostPassword_spec
    (hash : String → String) (isProd : Bool) (slug pw content : String)
    (form : Option String) (hpw : pw ≠ "") :
    (∀ p, form = some p → p ≠ "" → hash p = hash pw →
      verifyProtectedPostPassword hash isProd slug ⟨Access.prot, some pw, content⟩ form =
        ({ success? := some true, error? := none, content? := some content },
         some { name := protectedCookieName slug, value := hash pw, httpOnly := true,
                sameSite := "lax", path := "/", secure := isProd, maxAge := 60 * 60 * 12 })) ∧
    (∀ p, form = some p → p ≠ "" → hash p ≠ hash pw →
      verifyProtectedPostPassword hash isProd slug ⟨Access.prot, some pw, content⟩ form =
        ({ error? := some "パスワードが一致しません。" }, none)) ∧
    (form = none ∨ form = some "" →
      verifyProtectedPostPassword hash isProd slug ⟨Access.prot, some pw, content⟩ form =
        ({ error? := some "パスワードを入力してください。" }, none)) := by
  refine ⟨?_, ?_, ?_⟩
  · intro p hf hp hh
    subst hf
    simp [verifyProtectedPostPassword, passwordMissing, hpw, hp, hh]
  · intro p hf hp hh
    subst hf
    simp [verifyProtectedPostPassword, passwordMissing, hpw, hp, hh]
  · rintro (hf | hf) <;> subst hf <;>
      simp [verifyProtectedPostPassword, passwordMissing, hpw]

/-- Witness for C1 at a concrete instance: submitting the configured password
returns the content and the credential cookie. -/
theorem verifyProtectedPostPassword_spec_witness :
    verifyProtectedPostPassword (fun s => s) false "hello"
        ⟨Access.prot, some "secret", "body"⟩ (some "secret") =
      ({ success? := some true, error? := none, content? := some "body" },
       some { name := protectedCookieName "hello", value := "secret", httpOnly := true,
              sameSite := "lax", path := "/", secure := false, maxAge := 60 * 60 * 12 }) :=
  (verifyProtectedPostPassword_spec (fun s => s) false "hello" "secret" "body"
    (some "secret") (by decide)).1 "secret" rfl (by decide) rfl

/-- C2 counterexample: the request carries a cookie whose value equals the
hash of the configured password (under the name `"other"`), yet
`loadProtectedPost` still returns the unauthenticated result — the code only
consults the cookie named `protected-post-<slug>`, not any cookie with a
matching value. -/
theorem loadProtectedPost_value_cookie_counterexample :
    (∃ c ∈ [(("other", "pw") : String × String)], c.2 = (fun s : String => s) "pw") ∧
    loadProtectedPost (fun s => s) "a" ⟨Access.prot, some "pw", "body"⟩ [("other", "pw")] =
      { success? := some false } := by
  refine ⟨⟨("other", "pw"), by decide, rfl⟩, by decide⟩

/-- C2 (amended): `loadProtectedPost` returns content directly for a
non-protected post; for a protected post with a non-empty configured
password it returns content exactly when the cookie *named*
`protected-post-<slug>` holds the hash of that password, and otherwise the
unauthenticated result `success = false` with neither content nor error; a
protected post without a usable password yields the distinct
misconfiguration error. -/
theorem loadProtectedPost_spec (hash : String → String) (slug : String)
    (post : GatePost) (store : List (String × String)) :
    (post.access ≠ Access.prot →
      loadProtectedPost hash slug post store =
        { success? := some true, content? := some post.content }) ∧
    (∀ pw, post.password = some pw → pw ≠ "" → post.access = Access.prot →
      (lookupCookie store (protectedCookieName slug) = some (hash pw) →
        loadProtectedPost hash slug post store =
          { success? := some true, content? := some post.content }) ∧
      (lookupCookie store (protectedCookieName slug) ≠ some (hash pw) →
        loadProtectedPost hash slug post store =
          { success? := some false, error? := none, content? := none })) ∧
    (post.access = Access.prot → passwordMissing post.password = true →
      loadProtectedPost hash slug post store = misconfigError) := by
  refine ⟨?_, ?_, ?_⟩
  · intro hacc
    simp [loadProtectedPost, hacc]
  · intro pw hpw hne hacc
    constructor
    · intro hcookie
      simp [loadProtectedPost, hacc, passwordMissing, hpw, hne,
        hasProtectedAccess, hcookie]
    · intro hcookie
      have : hasProtectedAccess store slug (hash pw) = false := by
        unfold hasProtectedAccess
        cases hlk : lookupCookie store (protectedCookieName slug) with
        | none => rfl
        | some v =>
          simp only [beq_eq_false_iff_ne, ne_eq]
          intro hv
          exact hcookie (by rw [hlk, hv])
      simp [loadProtectedPost, hacc, passwordMissing, hpw, hne, this]
  · intro hacc hmiss
    simp [loadProtectedPost, hacc, hmiss]

/-- Witness for C2 at a concrete instance: with the slug-named credential
cookie present and holding the hash, the content is returned. -/
theorem loadProtectedPost_spec_witness :
    loadProtectedPost (fun s => s) "a" ⟨Access.prot, some "pw", "body"⟩
        [("protected-post-a", "pw")] =
      { success? := some true, content? := some "body" } :=
  ((loadProtectedPost_spec (fun s => s) "a" ⟨Access.prot, some "pw", "body"⟩
      [("protected-post-a", "pw")]).2.1 "pw" rfl (by decide) rfl).1 (by decide)

/-- C10: a protected post whose configured password is the empty string is
treated exactly like one with no password at all: both actions return the
misconfiguration error, and no submitted form value ever yields content or a
credential cookie. -/
theorem emptyPassword_misconfig (hash : String → String) (slug content : String)
    (store : List (String × String)) (isProd : Bool) (form : Option String) :
    loadProtectedPost hash slug ⟨Access.prot, some "", content⟩ store = misconfigError ∧
    loadProtectedPost hash slug ⟨Access.prot, some "", content⟩ store =
      loadProtectedPost hash slug ⟨Access.prot, none, content⟩ store ∧
    verifyProtectedPostPassword hash isProd slug ⟨Access.prot, some "", content⟩ form =
      (misconfigError, none) := by
  refine ⟨?_, ?_, ?_⟩ <;>
    simp [loadProtectedPost, verifyProtectedPostPassword, passwordMissing]

/-- C3 counterexample: the slug `"/abc"` contains `"/"` after trimming, yet
`resolvePostFilePath` returns a path instead of failing — the code strips one
leading slash before validating. -/
theorem resolvePostFilePath_leading_slash_counterexample :
    strContainsChar (jsTrim "/abc") '/' = true ∧
    resolvePostFilePath "/posts" "/abc" = Except.ok "/posts/abc/index.md" := by
  constructor
  · decide
  · rfl

/-- C3 (amended): every slug that, after removing a single leading `"/"` and
trimming, is empty, `"."`, `".."`, or contains `"/"` or `"\"`, makes
`resolvePostFilePath` fail with an invalid-slug error; and every returned
path lies within the resolved posts root. -/
theorem resolvePostFilePath_spec (postsRoot slug : String) :
    (∀ s, s = jsTrim (stripOneLeadingSlash slug) →
      s = "" ∨ s = "." ∨ s = ".." ∨
        strContainsChar s '/' = true ∨ strContainsChar s '\\' = true →
      ∃ e, resolvePostFilePath postsRoot slug = Except.error e) ∧
    (∀ p, resolvePostFilePath postsRoot slug = Except.ok p →
      strStartsWith p (pathResolve [postsRoot] ++ "/") = true ∨ p = pathResolve [postsRoot]) := by
  constructor
  · intro s hs hbad
    have hcond : ((jsTrim (stripOneLeadingSlash slug)).length == 0 ||
        jsTrim (stripOneLeadingSlash slug) == "." || jsTrim (stripOneLeadingSlash slug) == ".." ||
        strContainsChar (jsTrim (stripOneLeadingSlash slug)) '/' ||
        strContainsChar (jsTrim (stripOneLeadingSlash slug)) '\\') = true := by
      rw [← hs]
      rcases hbad with h | h | h | h | h
      · subst h; decide
      · subst h; decide
      · subst h; decide
      · simp [h]
      · simp [h]
    have hnorm : normalizeSlug (stripOneLeadingSlash slug) =
        Except.error ("Invalid slug: " ++ stripOneLeadingSlash slug) := by
      unfold normalizeSlug
      simp only [hcond, if_true]
    refine ⟨"Invalid slug: " ++ stripOneLeadingSlash slug, ?_⟩
    simp [resolvePostFilePath, hnorm]
  · intro p hp
    unfold resolvePostFilePath at hp
    cases hnorm : normalizeSlug (stripOneLeadingSlash slug) with
    | error e =>
      rw [hnorm] at hp
      exact absurd hp (by simp)
    | ok safeSlug =>
      rw [hnorm] at hp
      simp only at hp
      split at hp
      · exact absurd hp (by simp)
      · rename_i hguard
        have hp' : pathResolve [postsRoot, safeSlug, postEntryFilename] = p :=
          Except.ok.inj hp
        rw [Bool.not_eq_true] at hguard
        have hor := Bool.and_eq_false_iff.mp hguard
        rcases hor with h | h
        · left
          rw [← hp']
          simpa using h
        · right
          rw [← hp']
          simpa using h

/-- Witness for C3 at a concrete instance: the slug `" .. "` trims to `".."`
and is rejected. -/
theorem resolvePostFilePath_spec_witness :
    jsTrim (stripOneLeadingSlash " .. ") = ".." ∧
    ∃ e, resolvePostFilePath "/r" " .. " = Except.error e :=
  ⟨by decide,
   (resolvePostFilePath_spec "/r" " .. ").1 ".." (by decide)
     (Or.inr (Or.inr (Or.inl rfl)))⟩

/-- Inserting with a comparator permutes. -/
theorem insertByCmp_perm (c : α → α → Int) (x : α) (l : List α) :
    (insertByCmp c x l).Perm (x :: l) := by
  induction l with
  | nil => simp [insertByCmp]
  | cons y ys ih =>
    unfold insertByCmp
    split
    · exact List.Perm.refl _
    · exact (ih.cons y).trans (List.Perm.swap x y ys)

/-- Sorting with a comparator permutes. -/
theorem sortByCmp_perm (c : α → α → Int) (l : List α) :
    (sortByCmp c l).Perm l := by
  induction l with
  | nil => simp [sortByCmp]
  | cons x xs ih =>
    exact (insertByCmp_perm c x (sortByCmp c xs)).trans (ih.cons x)

/-- Inserting preserves pairwise order for a transitive relation compatible
with the comparator. -/
theorem insertByCmp_pairwise {Q : α → α → Prop} (c : α → α → Int)
    (htrans : ∀ a b d, Q a b → Q b d → Q a d)
    (hc : ∀ a b, (c a b ≤ 0 → Q a b) ∧ (0 < c a b → Q b a))
    (x : α) (l : List α) (hl : l.Pairwise Q) :
    (insertByCmp c x l).Pairwise Q := by
  induction l with
  | nil => simp [insertByCmp]
  | cons y ys ih =>
    rcases List.pairwise_cons.mp hl with ⟨hy, hys⟩
    unfold insertByCmp
    split
    · rename_i hle
      have hxy : Q x y := (hc x y).1 hle
      refine List.pairwise_cons.mpr ⟨?_, hl⟩
      intro z hz
      rcases List.mem_cons.mp hz with rfl | hz'
      · exact hxy
      · exact htrans x y z hxy (hy z hz')
    · rename_i hgt
      have hyx : Q y x := (hc x y).2 (by omega)
      refine List.pairwise_cons.mpr ⟨?_, ih hys⟩
      intro z hz
      have hz' : z ∈ x :: ys := (insertByCmp_perm c x ys).mem_iff.mp hz
      rcases List.mem_cons.mp hz' with rfl | hz''
      · exact hyx
      · exact hy z hz''

/-- Sorting establishes pairwise order for a transitive relation compatible
with the comparator. -/
theorem sortByCmp_pairwise {Q : α → α → Prop} (c : α → α → Int)
    (htrans : ∀ a b d, Q a b → Q b d → Q a d)
    (hc : ∀ a b, (c a b ≤ 0 → Q a b) ∧ (0 < c a b → Q b a))
    (l : List α) : (sortByCmp c l).Pairwise Q := by
  induction l with
  | nil => simp [sortByCmp]
  | cons x xs ih => exact insertByCmp_pairwise c htrans hc x _ ih

/-- C4: `listPublicPosts` returns exactly the entries with `access = public`
(a permutation of the filter), ordered by date descending with every undated
entry after all dated entries. -/
theorem listPublicPosts_spec (posts : List PostEntry) :
    (listPublicPosts posts).Perm
      (posts.filter (fun p => p.frontmatter.access == Access.pub)) ∧
    (listPublicPosts posts).Pairwise dateOrder := by
  constructor
  · exact sortByCmp_perm comparePosts _
  · apply sortByCmp_pairwise
    · intro a b d hab hbd
      cases hda : a.frontmatter.date <;> cases hdb : b.frontmatter.date <;>
        cases hdd : d.frontmatter.date <;>
        simp only [dateOrder, hda, hdb, hdd] at hab hbd ⊢
      all_goals first
        | trivial
        | omega
    · intro a b
      refine ⟨fun h => ?_, fun h => ?_⟩ <;>
        cases hda : a.frontmatter.date <;> cases hdb : b.frontmatter.date <;>
        simp only [comparePosts, dateOrder, hda, hdb] at h ⊢ <;>
        first
        | trivial
        | omega

/-- The settle-all collection loop keeps exactly the fulfilled values, in
result order. -/
theorem settleResults_eq_filterMap (results : List (Except PostFailure α)) :
    settleResults results = results.filterMap Except.toOption := by
  have h : ∀ (rs : List (Except PostFailure α)) (acc : List α),
      rs.foldl
        (fun acc r =>
          match r with
          | Except.ok v => acc ++ [v]
          | Except.error _ => acc)
        acc = acc ++ rs.filterMap Except.toOption := by
    intro rs
    induction rs with
    | nil => intro acc; simp
    | cons r rs ih =>
      intro acc
      cases r with
      | ok v => simp [List.foldl, ih, Except.toOption]
      | error e => simp [List.foldl, ih, Except.toOption]
  unfold settleResults
  simpa using h results []

/-- The aggregated entry list is the in-order image of the succeeding
slugs. -/
theorem buildPostEntries_eq_filterMap (pipe : String → Except PostFailure α)
    (slugs : List String) :
    buildPostEntries pipe slugs = slugs.filterMap (fun s => (pipe s).toOption) := by
  unfold buildPostEntries
  rw [settleResults_eq_filterMap, List.filterMap_map]
  rfl

/-- C5: each slug's pipeline is independent — the aggregated result is the
per-slug outcomes of the succeeding slugs in discovery order, and dropping a
failing slug from the input leaves every other slug's contribution
unchanged. -/
theorem buildPostEntries_spec (pipe : String → Except PostFailure α)
    (slugs : List String) :
    buildPostEntries pipe slugs = slugs.filterMap (fun s => (pipe s).toOption) ∧
    (∀ pre post s e, pipe s = Except.error e →
      buildPostEntries pipe (pre ++ s :: post) = buildPostEntries pipe (pre ++ post)) := by
  refine ⟨buildPostEntries_eq_filterMap pipe slugs, ?_⟩
  intro pre post s e he
  rw [buildPostEntries_eq_filterMap, buildPostEntries_eq_filterMap,
    List.filterMap_append, List.filterMap_append, List.filterMap_cons]
  simp [he, Except.toOption]

/-- Witness for C5 at a concrete instance: with `"b"` failing among three
slugs, the other two slugs survive, in discovery order. -/
theorem buildPostEntries_spec_witness :
    buildPostEntries sampleFailBPipe ["a", "b", "c"] =
      buildPostEntries sampleFailBPipe ["a", "c"] ∧
    buildPostEntries sampleFailBPipe ["a", "c"] = ["a", "c"] :=
  ⟨(buildPostEntries_spec sampleFailBPipe ["a", "b", "c"]).2 ["a"] ["c"] "b"
     (PostFailure.validation ["missing title"]) rfl, by rfl⟩

/-- C6 counterexample: in the live `listPostsCached`, when the single
discovered slug fails to parse the operation returns an empty list
successfully, not a fatal error. -/
theorem listPostsCachedLive_empty_ok_counterexample :
    (allFailPipe "a").toOption = none ∧
    listPostsCachedLive allFailPipe "/root" [⟨"a", true⟩] (fun _ => true) =
      Except.ok ([] : List String) := by
  exact ⟨rfl, rfl⟩

/-- C6 (amended): zero successfully parsed posts is fatal in the build-time
generator (`buildPosts` throws the descriptive error), while the live
`listPostsCached` instead returns an empty list. -/
theorem buildPosts_zero_success_fatal (pipe : String → Except PostFailure α)
    (slugs : List String) (h : ∀ s ∈ slugs, ∃ e, pipe s = Except.error e) :
    buildPosts pipe slugs =
      Except.error "No valid posts generated. Check content and frontmatter." ∧
    ∀ postsRoot dirEntries hasIdx,
      (∀ s, ∃ e, pipe s = Except.error e) →
      (∃ slugs2, listPostSlugs postsRoot dirEntries hasIdx = Except.ok slugs2) →
      listPostsCachedLive pipe postsRoot dirEntries hasIdx = Except.ok [] := by
  have hempty : ∀ sl : List String, (∀ s ∈ sl, ∃ e, pipe s = Except.error e) →
      buildPostEntries pipe sl = [] := by
    intro sl hall
    rw [buildPostEntries_eq_filterMap]
    apply List.filterMap_eq_nil_iff.mpr
    intro s hs
    rcases hall s hs with ⟨e, he⟩
    simp [he, Except.toOption]
  constructor
  · unfold buildPosts
    rw [hempty slugs h]
    rfl
  · intro postsRoot dirEntries hasIdx hallfail ⟨slugs2, hslugs⟩
    unfold listPostsCachedLive
    rw [hslugs]
    simp only [hempty slugs2 (fun s _ => hallfail s)]

/-- Witness for C6 at a concrete instance: every slug failing makes
`buildPosts` fail with the descriptive error. -/
theorem buildPosts_zero_success_fatal_witness :
    buildPosts allFailPipe ["a"] =
      Except.error "No valid posts generated. Check content and frontmatter." :=
  (buildPosts_zero_success_fatal allFailPipe ["a"]
    (fun _ _ => ⟨PostFailure.validation ["missing title"], rfl⟩)).1

/-- Mapping a throwing function over elements it fixes succeeds with the same
list. -/
theorem mapExcept_ok_of_fixed (f : α → Except ε α) (l : List α)
    (h : ∀ x ∈ l, f x = Except.ok x) : mapExcept f l = Except.ok l := by
  induction l with
  | nil => rfl
  | cons x xs ih =>
    unfold mapExcept
    rw [h x (List.mem_cons_self x xs),
      ih (fun n hn => h n (List.mem_cons_of_mem x hn))]

/-- `listStrLt` is irreflexive. -/
theorem listStrLt_irrefl (x : List Char) : listStrLt x x = false := by
  induction x with
  | nil => rfl
  | cons a as ih => simp [listStrLt, lt_irrefl, ih]

/-- `listStrLt` is transitive. -/
theorem listStrLt_trans (x y z : List Char) (hxy : listStrLt x y = true)
    (hyz : listStrLt y z = true) : listStrLt x z = true := by
  induction x generalizing y z with
  | nil =>
    cases y with
    | nil => exact absurd hxy (by simp [listStrLt])
    | cons b bs =>
      cases z with
      | nil => exact absurd hyz (by simp [listStrLt])
      | cons c cs => simp [listStrLt]
  | cons a as ih =>
    cases y with
    | nil => exact absurd hxy (by simp [listStrLt])
    | cons b bs =>
      cases z with
      | nil => exact absurd hyz (by simp [listStrLt])
      | cons c cs =>
        rcases lt_trichotomy a b with hab | hab | hab
        · rcases lt_trichotomy b c with hbc | hbc | hbc
          · simp [listStrLt, lt_trans hab hbc]
          · subst hbc
            simp [listStrLt, hab]
          · simp [listStrLt, lt_asymm hbc, hbc] at hyz
        · subst hab
          simp only [listStrLt, lt_irrefl, if_false] at hxy
          rcases lt_trichotomy a c with hac | hac | hac
          · simp [listStrLt, hac]
          · subst hac
            simp only [listStrLt, lt_irrefl, if_false] at hyz ⊢
            exact ih bs cs hxy hyz
          · simp [listStrLt, lt_asymm hac, hac] at hyz
        · simp [listStrLt, lt_asymm hab, hab] at hxy

/-- Two lists neither of which is lexicographically below the other are
equal. -/
theorem listStrLt_eq_of_not (x y : List Char) (h1 : listStrLt x y = false)
    (h2 : listStrLt y x = false) : x = y := by
  induction x generalizing y with
  | nil =>
    cases y with
    | nil => rfl
    | cons b bs => simp [listStrLt] at h1
  | cons a as ih =>
    cases y with
    | nil => simp [listStrLt] at h2
    | cons b bs =>
      rcases lt_trichotomy a b with hab | hab | hab
      · simp [listStrLt, hab] at h1
      · subst hab
        simp only [listStrLt, lt_irrefl, if_false] at h1 h2
        rw [ih bs h1 h2]
      · simp [listStrLt, lt_asymm hab, hab] at h2

/-- `strLt` is irreflexive. -/
theorem strLt_irrefl (a : String) : strLt a a = false :=
  listStrLt_irrefl a.data

/-- `strLt` is transitive. -/
theorem strLt_trans (a b c : String) (h1 : strLt a b = true)
    (h2 : strLt b c = true) : strLt a c = true :=
  listStrLt_trans a.data b.data c.data h1 h2

/-- Two strings neither of which is lexicographically below the other are
equal. -/
theorem strLt_eq_of_not (a b : String) (h1 : strLt a b = false)
    (h2 : strLt b a = false) : a = b := by
  cases a with
  | mk da =>
    cases b with
    | mk db =>
      exact congrArg String.mk (listStrLt_eq_of_not da db h1 h2)

/-- The non-strict order `strLt · · = false` (read `Q a b` as `a ≤ b`) is
transitive. -/
theorem strNotGt_trans (a b d : String) (h1 : strLt b a = false)
    (h2 : strLt d b = false) : strLt d a = false := by
  cases hda : strLt d a with
  | false => rfl
  | true =>
    exfalso
    cases hbd : strLt b d with
    | true =>
      have : strLt b a = true := strLt_trans b d a hbd hda
      rw [h1] at this
      exact Bool.noConfusion this
    | false =>
      have hdb : d = b := strLt_eq_of_not d b h2 hbd
      rw [hdb] at hda
      rw [h1] at hda
      exact Bool.noConfusion hda

/-- The comparator `localeCompare` is compatible with the non-strict
lexicographic order. -/
theorem localeCompare_le (a b : String) :
    (localeCompare a b ≤ 0 → strLt b a = false) ∧
    (0 < localeCompare a b → strLt a b = false) := by
  unfold localeCompare
  split_ifs with h1 h2
  · refine ⟨fun _ => ?_, fun hh => absurd hh (by omega)⟩
    cases hba : strLt b a with
    | false => rfl
    | true =>
      have : strLt a a = true := strLt_trans a b a h1 hba
      rw [strLt_irrefl] at this
      exact Bool.noConfusion this
  · subst h2
    exact ⟨fun _ => strLt_irrefl a, fun hh => absurd hh (by omega)⟩
  · refine ⟨fun hh => absurd hh (by omega), fun _ => ?_⟩
    cases h : strLt a b with
    | false => rfl
    | true => exact absurd h h1

/-- C7: discovery keeps exactly the non-hidden immediate subdirectories that
have `index.md` (hypothesis: the retained directory names are already clean
slugs), fails with the layout-naming error when none remain, and otherwise
returns them sorted ascending — a deterministic, lexicographically sorted
permutation of the retained names. -/
theorem listPostSlugs_spec (postsRoot : String) (dirEntries : List DirEntry)
    (hasIdx : String → Bool)
    (hvalid : ∀ e ∈ dirEntries, e.isDir = true → strStartsWith e.name "." = false →
      normalizeSlug e.name = Except.ok e.name) :
    (discoveredSlugs dirEntries hasIdx = [] →
      listPostSlugs postsRoot dirEntries hasIdx =
        Except.error ("No posts found in " ++ postsRoot ++
          ". Expected \"external-posts/<slug>/index.md\".")) ∧
    (discoveredSlugs dirEntries hasIdx ≠ [] →
      listPostSlugs postsRoot dirEntries hasIdx =
        Except.ok (sortByCmp localeCompare (discoveredSlugs dirEntries hasIdx)) ∧
      (sortByCmp localeCompare (discoveredSlugs dirEntries hasIdx)).Perm
        (discoveredSlugs dirEntries hasIdx) ∧
      (sortByCmp localeCompare (discoveredSlugs dirEntries hasIdx)).Pairwise
        (fun a b => strLt b a = false)) := by
  have hmap : mapExcept normalizeSlug
      ((dirEntries.filter
        (fun e => e.isDir && !(strStartsWith e.name "."))).map (fun e => e.name)) =
      Except.ok ((dirEntries.filter
        (fun e => e.isDir && !(strStartsWith e.name "."))).map (fun e => e.name)) := by
    apply mapExcept_ok_of_fixed
    intro n hn
    rcases List.mem_map.mp hn with ⟨d, hd, rfl⟩
    rcases List.mem_filter.mp hd with ⟨hdmem, hcond⟩
    simp only [Bool.and_eq_true, Bool.not_eq_true'] at hcond
    exact hvalid d hdmem hcond.1 hcond.2
  constructor
  · intro hnil
    have hfound : ((dirEntries.filter
        (fun e => e.isDir && !(strStartsWith e.name "."))).map
          (fun e => e.name)).filter hasIdx = [] := hnil
    simp only [listPostSlugs]
    rw [hmap]
    simp [hfound]
  · intro hne
    have hlen : (((dirEntries.filter
        (fun e => e.isDir && !(strStartsWith e.name "."))).map
          (fun e => e.name)).filter hasIdx).length ≠ 0 := by
      intro hzero
      exact hne (List.length_eq_zero.mp hzero)
    refine ⟨?_, sortByCmp_perm localeCompare _,
      sortByCmp_pairwise (Q := fun a b : String => strLt b a = false) localeCompare
        (fun a b d hab hbd => strNotGt_trans a b d hab hbd) localeCompare_le _⟩
    simp only [listPostSlugs]
    rw [hmap]
    simp only [discoveredSlugs]
    rw [if_neg (by simpa using hlen)]

/-- Witness for C7 at the spec's own example: of `["b", "a", ".git",
"c-no-index"]` only `a` and `b` have the entry file; discovery returns
`["a", "b"]`. -/
theorem listPostSlugs_spec_witness :
    listPostSlugs "/content"
        [⟨"b", true⟩, ⟨"a", true⟩, ⟨".git", true⟩, ⟨"c-no-index", true⟩]
        (fun s => s == "a" || s == "b") = Except.ok ["a", "b"] := by
  have h := (listPostSlugs_spec "/content"
      [⟨"b", true⟩, ⟨"a", true⟩, ⟨".git", true⟩, ⟨"c-no-index", true⟩]
      (fun s => s == "a" || s == "b") (by decide)).2 (by decide)
  exact h.1.trans (by decide)

/-- A `normalizeSlug` failure always carries the invalid-slug message for its
input. -/
theorem normalizeSlug_error_shape (n e : String)
    (h : normalizeSlug n = Except.error e) : e = "Invalid slug: " ++ n := by
  simp only [normalizeSlug] at h
  split at h
  · exact (Except.error.inj h).symm
  · exact Except.noConfusion h

/-- If some element of the list makes `f` throw, the JS map throws the error
of one of its elements. -/
theorem mapExcept_error_of_exists (f : α → Except ε β) (l : List α)
    (h : ∃ x ∈ l, ∃ e, f x = Except.error e) :
    ∃ z ∈ l, ∃ e, f z = Except.error e ∧ mapExcept f l = Except.error e := by
  induction l with
  | nil =>
    rcases h with ⟨x, hx, _⟩
    cases hx
  | cons a as ih =>
    cases hfa : f a with
    | error e =>
      refine ⟨a, List.mem_cons_self a as, e, hfa, ?_⟩
      unfold mapExcept
      rw [hfa]
    | ok b =>
      rcases h with ⟨x, hx, e, hfx⟩
      rcases List.mem_cons.mp hx with rfl | hx'
      · rw [hfa] at hfx
        exact Except.noConfusion hfx
      · rcases ih ⟨x, hx', e, hfx⟩ with ⟨z, hz, e', hfz, hmap⟩
        refine ⟨z, List.mem_cons_of_mem a hz, e', hfz, ?_⟩
        unfold mapExcept
        rw [hfa, hmap]

/-- C9: a non-hidden directory whose non-empty name trims to the empty string
makes the whole discovery pass fail with an invalid-slug error (the throw
happens inside the `map` over directory names), instead of that one
directory being skipped. -/
theorem listPostSlugs_whitespace_fatal (postsRoot : String)
    (dirEntries : List DirEntry) (hasIdx : String → Bool) (d : DirEntry)
    (hmem : d ∈ dirEntries) (hdir : d.isDir = true)
    (hhid : strStartsWith d.name "." = false) (_hne : d.name ≠ "")
    (htrim : jsTrim d.name = "") :
    ∃ n, listPostSlugs postsRoot dirEntries hasIdx =
      Except.error ("Invalid slug: " ++ n) := by
  have hnm : d.name ∈ (dirEntries.filter
      (fun e => e.isDir && !(strStartsWith e.name "."))).map (fun e => e.name) :=
    List.mem_map.mpr ⟨d, List.mem_filter.mpr ⟨hmem, by simp [hdir, hhid]⟩, rfl⟩
  have hfail : ∃ e, normalizeSlug d.name = Except.error e := by
    refine ⟨"Invalid slug: " ++ d.name, ?_⟩
    simp only [normalizeSlug, htrim]
    rfl
  rcases mapExcept_error_of_exists normalizeSlug _ ⟨d.name, hnm, hfail⟩ with
    ⟨z, hz, e, hfz, hmap⟩
  refine ⟨z, ?_⟩
  simp only [listPostSlugs]
  rw [hmap, normalizeSlug_error_shape z e hfz]

/-- Witness for C9 at a concrete instance: a directory named `" "` aborts
discovery with an invalid-slug error. -/
theorem listPostSlugs_whitespace_fatal_witness :
    ∃ n, listPostSlugs "/c" [⟨"a", true⟩, ⟨" ", true⟩] (fun _ => true) =
      Except.error ("Invalid slug: " ++ n) :=
  listPostSlugs_whitespace_fatal "/c" [⟨"a", true⟩, ⟨" ", true⟩] (fun _ => true)
    ⟨" ", true⟩ (by decide) rfl (by decide) (by decide) (by decide)

/-- `titleIssues` is empty exactly when `title` is a non-empty string. -/
theorem titleIssues_nil_iff (v : Option RawValue) :
    titleIssues v = [] ↔ ∃ s, v = some (RawValue.str s) ∧ s ≠ "" := by
  cases v with
  | none => simp [titleIssues]
  | some r =>
    cases r with
    | str s =>
      by_cases h : s = ""
      · subst h
        simp [titleIssues]
      · simp [titleIssues, h]
    | num n => simp [titleIssues]
    | boolVal b => simp [titleIssues]
    | arr xs => simp [titleIssues]
    | objVal => simp [titleIssues]

/-- `parseAccess` succeeds exactly on the four literals. -/
theorem parseAccess_isSome_iff (s : String) :
    (parseAccess s).isSome = true ↔ s ∈ accessLiteralList := by
  unfold parseAccess accessLiteralList
  split_ifs <;> simp [*]

/-- `accessIssues` is empty exactly when `access` is absent or one of the
four literals. -/
theorem accessIssues_nil_iff (v : Option RawValue) :
    accessIssues v = [] ↔
      (v = none ∨ ∃ s, v = some (RawValue.str s) ∧ s ∈ accessLiteralList) := by
  cases v with
  | none => simp [accessIssues]
  | some r =>
    cases r with
    | str s =>
      by_cases h : (parseAccess s).isSome = true
      · simp [accessIssues, h, (parseAccess_isSome_iff s).mp h]
      · have hmem : s ∉ accessLiteralList := fun hm => h ((parseAccess_isSome_iff s).mpr hm)
        simp [accessIssues, h, hmem]
    | num n => simp [accessIssues]
    | boolVal b => simp [accessIssues]
    | arr xs => simp [accessIssues]
    | objVal => simp [accessIssues]

/-- `dateIssues` is empty exactly when `date` is absent or an ISO-parsable
string. -/
theorem dateIssues_nil_iff (isoOk : String → Bool) (v : Option RawValue) :
    dateIssues isoOk v = [] ↔
      (v = none ∨ ∃ s, v = some (RawValue.str s) ∧ isoOk s = true) := by
  cases v with
  | none => simp [dateIssues]
  | some r =>
    cases r with
    | str s =>
      by_cases h : isoOk s = true
      · simp [dateIssues, h]
      · simp [dateIssues, h]
    | num n => simp [dateIssues]
    | boolVal b => simp [dateIssues]
    | arr xs => simp [dateIssues]
    | objVal => simp [dateIssues]

/-- `topicsIssues` is empty exactly when `topics` is absent or an array of
strings. -/
theorem topicsIssues_nil_iff (v : Option RawValue) :
    topicsIssues v = [] ↔
      (v = none ∨ ∃ xs, v = some (RawValue.arr xs) ∧ ∀ x ∈ xs, isStrValue x = true) := by
  cases v with
  | none => simp [topicsIssues]
  | some r =>
    cases r with
    | str s => simp [topicsIssues]
    | num n => simp [topicsIssues]
    | boolVal b => simp [topicsIssues]
    | arr xs =>
      by_cases h : xs.all isStrValue = true
      · exact iff_of_true (by simp [topicsIssues, h])
          (Or.inr ⟨xs, rfl, List.all_eq_true.mp h⟩)
      · refine iff_of_false (by simp [topicsIssues, h]) ?_
        rintro (hn | ⟨xs', hxs, hall⟩)
        · exact Option.noConfusion hn
        · have hxx : xs = xs' := RawValue.arr.inj (Option.some.inj hxs)
          cases hxx
          exact h (List.all_eq_true.mpr hall)
    | objVal => simp [topicsIssues]

/-- `passwordIssues` is empty exactly when `password` is absent or a
non-empty string. -/
theorem passwordIssues_nil_iff (v : Option RawValue) :
    passwordIssues v = [] ↔
      (v = none ∨ ∃ s, v = some (RawValue.str s) ∧ s ≠ "") := by
  cases v with
  | none => simp [passwordIssues]
  | some r =>
    cases r with
    | str s =>
      by_cases h : s = ""
      · subst h
        simp [passwordIssues]
      · simp [passwordIssues, h]
    | num n => simp [passwordIssues]
    | boolVal b => simp [passwordIssues]
    | arr xs => simp [passwordIssues]
    | objVal => simp [passwordIssues]

/-- The raw `access` resolves to `protected` exactly when it is the literal
string `"protected"`. -/
theorem resolvedAccess_prot_iff (v : Option RawValue) :
    resolvedAccess v = some Access.prot ↔ v = some (RawValue.str "protected") := by
  cases v with
  | none => simp [resolvedAccess]
  | some r =>
    cases r with
    | str s =>
      simp only [resolvedAccess, parseAccess]
      split_ifs <;> simp [*]
    | num n => simp [resolvedAccess]
    | boolVal b => simp [resolvedAccess]
    | arr xs => simp [resolvedAccess]
    | objVal => simp [resolvedAccess]

/-- `crossIssues` is empty exactly when a protected `access` comes with a
present `password`. -/
theorem crossIssues_nil_iff (a p : Option RawValue) :
    crossIssues a p = [] ↔ (a = some (RawValue.str "protected") → p ≠ none) := by
  unfold crossIssues
  split_ifs with h
  · rcases h with ⟨hacc, hp⟩
    exact iff_of_false (by simp)
      (fun himp => himp ((resolvedAccess_prot_iff a).mp hacc)
        (Option.isNone_iff_eq_none.mp hp))
  · refine iff_of_true rfl ?_
    intro hacc hpnone
    exact h ⟨(resolvedAccess_prot_iff a).mpr hacc, by rw [hpnone]; rfl⟩

/-- A non-empty `titleIssues` list names the `title` field. -/
theorem titleIssues_name (v : Option RawValue) (h : titleIssues v ≠ []) :
    "title" ∈ (titleIssues v).map Prod.fst := by
  cases v with
  | none => simp [titleIssues]
  | some r =>
    cases r with
    | str s =>
      by_cases hs : s = ""
      · subst hs
        simp [titleIssues]
      · exact absurd (by simp [titleIssues, hs]) h
    | num n => simp [titleIssues]
    | boolVal b => simp [titleIssues]
    | arr xs => simp [titleIssues]
    | objVal => simp [titleIssues]

/-- A non-empty `accessIssues` list names the `access` field. -/
theorem accessIssues_name (v : Option RawValue) (h : accessIssues v ≠ []) :
    "access" ∈ (accessIssues v).map Prod.fst := by
  cases v with
  | none => exact absurd rfl h
  | some r =>
    cases r with
    | str s =>
      by_cases hp : (parseAccess s).isSome = true
      · exact absurd (by simp [accessIssues, hp]) h
      · simp [accessIssues, hp]
    | num n => simp [accessIssues]
    | boolVal b => simp [accessIssues]
    | arr xs => simp [accessIssues]
    | objVal => simp [accessIssues]

/-- A non-empty `dateIssues` list names the `date` field. -/
theorem dateIssues_name (isoOk : String → Bool) (v : Option RawValue)
    (h : dateIssues isoOk v ≠ []) :
    "date" ∈ (dateIssues isoOk v).map Prod.fst := by
  cases v with
  | none => exact absurd rfl h
  | some r =>
    cases r with
    | str s =>
      by_cases hp : isoOk s = true
      · exact absurd (by simp [dateIssues, hp]) h
      · simp [dateIssues, hp]
    | num n => simp [dateIssues]
    | boolVal b => simp [dateIssues]
    | arr xs => simp [dateIssues]
    | objVal => simp [dateIssues]

/-- A non-empty `topicsIssues` list names the `topics` field. -/
theorem topicsIssues_name (v : Option RawValue) (h : topicsIssues v ≠ []) :
    "topics" ∈ (topicsIssues v).map Prod.fst := by
  cases v with
  | none => exact absurd rfl h
  | some r =>
    cases r with
    | str s => simp [topicsIssues]
    | num n => simp [topicsIssues]
    | boolVal b => simp [topicsIssues]
    | arr xs =>
      by_cases hp : xs.all isStrValue = true
      · exact absurd (by simp [topicsIssues, hp]) h
      · simp [topicsIssues, hp]
    | objVal => simp [topicsIssues]

/-- A non-empty `passwordIssues` list names the `password` field. -/
theorem passwordIssues_name (v : Option RawValue) (h : passwordIssues v ≠ []) :
    "password" ∈ (passwordIssues v).map Prod.fst := by
  cases v with
  | none => exact absurd rfl h
  | some r =>
    cases r with
    | str s =>
      by_cases hs : s = ""
      · subst hs
        simp [passwordIssues]
      · exact absurd (by simp [passwordIssues, hs]) h
    | num n => simp [passwordIssues]
    | boolVal b => simp [passwordIssues]
    | arr xs => simp [passwordIssues]
    | objVal => simp [passwordIssues]

/-- A non-empty `crossIssues` list names the `password` field. -/
theorem crossIssues_name (a p : Option RawValue) (h : crossIssues a p ≠ []) :
    "password" ∈ (crossIssues a p).map Prod.fst := by
  unfold crossIssues at h ⊢
  split_ifs at h ⊢ with hc
  · simp
  · exact absurd rfl h

/-- C8 counterexample: a raw mapping with a valid title and `password: ""`
satisfies every condition the claim lists (password is not required since
access defaults to private), yet the validator rejects it — the spec's
per-field rule also demands that a *present* password be non-empty. -/
theorem validateFrontmatter_empty_password_counterexample :
    (validateFrontmatter (fun _ => true) c8Raw).isOk = false ∧
    c8ClaimCond (fun _ => true) c8Raw := by
  refine ⟨rfl, ⟨"t", rfl, by decide⟩, Or.inl rfl, Or.inl rfl, Or.inl rfl, ?_⟩
  intro h
  exact Option.noConfusion h

set_option maxHeartbeats 1000000 in
/-- C8 (amended): the validator succeeds exactly when the claim's conditions
hold *and* `password`, when present, is a non-empty string; and on failure
the issue list names every violated field in one pass. -/
theorem validateFrontmatter_spec (isoOk : String → Bool) (raw : RawFrontmatter) :
    ((validateFrontmatter isoOk raw).isOk = true ↔
      (c8ClaimCond isoOk raw ∧ passwordFieldOk raw)) ∧
    (∀ issues, validateFrontmatter isoOk raw = Except.error issues →
      ((¬ titleOk raw → "title" ∈ issues.map Prod.fst) ∧
       (¬ accessOk raw → "access" ∈ issues.map Prod.fst) ∧
       (¬ dateFieldOk isoOk raw → "date" ∈ issues.map Prod.fst) ∧
       (¬ topicsOk raw → "topics" ∈ issues.map Prod.fst) ∧
       (¬ passwordFieldOk raw → "password" ∈ issues.map Prod.fst) ∧
       (¬ protNeedsPassword raw → "password" ∈ issues.map Prod.fst))) := by
  have hiff : (validateFrontmatter isoOk raw).isOk = true ↔
      (titleIssues raw.title = [] ∧ accessIssues raw.access = [] ∧
        dateIssues isoOk raw.date = [] ∧ topicsIssues raw.topics = [] ∧
        passwordIssues raw.password = [] ∧
        crossIssues raw.access raw.password = []) := by
    simp only [validateFrontmatter]
    split_ifs with h
    · simp only [List.append_eq_nil] at h
      simp [Except.isOk, Except.toBool, h]
    · simp only [List.append_eq_nil] at h
      constructor
      · intro habs
        exact absurd habs (by simp [Except.isOk, Except.toBool])
      · intro hconj
        exact absurd hconj (by tauto)
  constructor
  · rw [hiff]
    constructor
    · rintro ⟨h1, h2, h3, h4, h5, h6⟩
      exact ⟨⟨(titleIssues_nil_iff _).mp h1, (accessIssues_nil_iff _).mp h2,
        (dateIssues_nil_iff _ _).mp h3, (topicsIssues_nil_iff _).mp h4,
        (crossIssues_nil_iff _ _).mp h6⟩, (passwordIssues_nil_iff _).mp h5⟩
    · rintro ⟨⟨h1, h2, h3, h4, h6⟩, h5⟩
      exact ⟨(titleIssues_nil_iff _).mpr h1, (accessIssues_nil_iff _).mpr h2,
        (dateIssues_nil_iff _ _).mpr h3, (topicsIssues_nil_iff _).mpr h4,
        (passwordIssues_nil_iff _).mpr h5, (crossIssues_nil_iff _ _).mpr h6⟩
  · intro issues hissues
    have hL : titleIssues raw.title ++ (accessIssues raw.access ++
        (dateIssues isoOk raw.date ++ (topicsIssues raw.topics ++
        (passwordIssues raw.password ++ crossIssues raw.access raw.password)))) =
        issues := by
      simp only [validateFrontmatter] at hissues
      split at hissues
      · exact Except.noConfusion hissues
      · have := Except.error.inj hissues
        simpa [List.append_assoc] using this
    refine ⟨?_, ?_, ?_, ?_, ?_, ?_⟩
    · intro hnot
      have hne : titleIssues raw.title ≠ [] :=
        fun h0 => hnot ((titleIssues_nil_iff raw.title).mp h0)
      have hmem := titleIssues_name raw.title hne
      rw [← hL]
      simp only [List.map_append, List.mem_append]
      tauto
    · intro hnot
      have hne : accessIssues raw.access ≠ [] :=
        fun h0 => hnot ((accessIssues_nil_iff raw.access).mp h0)
      have hmem := accessIssues_name raw.access hne
      rw [← hL]
      simp only [List.map_append, List.mem_append]
      tauto
    · intro hnot
      have hne : dateIssues isoOk raw.date ≠ [] :=
        fun h0 => hnot ((dateIssues_nil_iff isoOk raw.date).mp h0)
      have hmem := dateIssues_name isoOk raw.date hne
      rw [← hL]
      simp only [List.map_append, List.mem_append]
      tauto
    · intro hnot
      have hne : topicsIssues raw.topics ≠ [] :=
        fun h0 => hnot ((topicsIssues_nil_iff raw.topics).mp h0)
      have hmem := topicsIssues_name raw.topics hne
      rw [← hL]
      simp only [List.map_append, List.mem_append]
      tauto
    · intro hnot
      have hne : passwordIssues raw.password ≠ [] :=
        fun h0 => hnot ((passwordIssues_nil_iff raw.password).mp h0)
      have hmem := passwordIssues_name raw.password hne
      rw [← hL]
      simp only [List.map_append, List.mem_append]
      tauto
    · intro hnot
      have hne : crossIssues raw.access raw.password ≠ [] :=
        fun h0 => hnot ((crossIssues_nil_iff raw.access raw.password).mp h0)
      have hmem := crossIssues_name raw.access raw.password hne
      rw [← hL]
      simp only [List.map_append, List.mem_append]
      tauto

/-- Witness for C8 at concrete instances: a mapping missing `title` with a
scalar `topics` is rejected with issues naming both fields, and a protected
mapping without `password` is rejected with an issue naming `password`. -/
theorem validateFrontmatter_spec_witness :
    (∃ issues, validateFrontmatter (fun _ => true) c8BadRaw = Except.error issues ∧
      "title" ∈ issues.map Prod.fst ∧ "topics" ∈ issues.map Prod.fst) ∧
    (∃ issues, validateFrontmatter (fun _ => true) c8ProtRaw = Except.error issues ∧
      "password" ∈ issues.map Prod.fst) := by
  constructor
  · have h := (validateFrontmatter_spec (fun _ => true) c8BadRaw).2
      [("title", "required"), ("topics", "must be an array")] rfl
    refine ⟨[("title", "required"), ("topics", "must be an array")], rfl, ?_, ?_⟩
    · refine h.1 ?_
      rintro ⟨s, hs, _⟩
      exact Option.noConfusion hs
    · refine h.2.2.2.1 ?_
      rintro (hn | ⟨xs, hxs, _⟩)
      · exact Option.noConfusion hn
      · exact RawValue.noConfusion (Option.some.inj hxs)
  · have h := (validateFrontmatter_spec (fun _ => true) c8ProtRaw).2
      [("password", "required when access is protected")] rfl
    refine ⟨[("password", "required when access is protected")], rfl, ?_⟩
    refine h.2.2.2.2.2 ?_
    intro himp
    exact himp rfl rfl

end Blog
